import Mathlib

/-!
Verification of the pure-pursuit path tracker in src/main.js.

The JavaScript source is shallowly embedded over the real numbers:
JS floating-point arithmetic is modelled by ℝ (Math.hypot dx dy is
Real.sqrt (dx^2 + dy^2), Math.atan2 y x is Complex.arg ⟨x, y⟩, the JS
remainder operator on floats is jsFmod below, Math.sign is Real.sign).
Mutable globals (segments, curSeg, robotX, robotY, robotDir, ppRunning)
become explicit state records; the canvas / clock / input machinery of
main.js is not modelled.  Whenever a JS expression would divide by zero
or index out of bounds, the Lean embedding returns junk values (x / 0 = 0,
out-of-range index yields a default segment); all theorems below are
stated on inputs where this does not matter or make the discrepancy the
explicit subject (the degenerate-segment and empty-path results).
-/

set_option maxHeartbeats 1000000

namespace FRCWaypoints

/-- A waypoint in field coordinates (main.js keeps them as {x, y}). -/
structure Point where
  x : ℝ
  y : ℝ

instance : Inhabited Point := ⟨⟨0, 0⟩⟩

/-- One path segment as produced by getSegments (main.js lines 31-43):
endpoints, delta, normalized direction, Euclidean length and heading. -/
structure Seg where
  x1 : ℝ
  y1 : ℝ
  x2 : ℝ
  y2 : ℝ
  dx : ℝ
  dy : ℝ
  ndx : ℝ
  ndy : ℝ
  length : ℝ
  angle : ℝ

instance : Inhabited Seg := ⟨⟨0, 0, 0, 0, 0, 0, 0, 0, 0, 0⟩⟩

/-- Math.atan2 y x, modelled by the argument of the complex number x + y i. -/
noncomputable def atan2 (y x : ℝ) : ℝ := Complex.arg ⟨x, y⟩

/-- const PURSUIT_DIST = 70. -/
noncomputable def PURSUIT_DIST : ℝ := 70

/-- const ROBOT_SPEED = 180. -/
noncomputable def ROBOT_SPEED : ℝ := 180

/-- const MIN_TURN_RADIUS = 50. -/
noncomputable def MIN_TURN_RADIUS : ℝ := 50

/-- const SKIP_DIST = 40. -/
noncomputable def SKIP_DIST : ℝ := 40

/-- Truncation toward zero, as used by the JS % operator. -/
noncomputable def jsTrunc (x : ℝ) : ℤ := if 0 ≤ x then ⌊x⌋ else ⌈x⌉

/-- The JS remainder a % b for floats: a - b * trunc (a / b). -/
noncomputable def jsFmod (a b : ℝ) : ℝ := a - b * (jsTrunc (a / b) : ℝ)

/-- function normalizeAngle(a) of main.js lines 134-138:
a %= 2*Math.PI; if (a < 0) a += 2*Math.PI; return a. -/
noncomputable def normalizeAngle (a : ℝ) : ℝ :=
  let m := jsFmod a (2 * Real.pi)
  if m < 0 then m + 2 * Real.pi else m

/-- The body of the getSegments loop for one consecutive pair of
waypoints (main.js lines 34-40).  Math.hypot(dx, dy) is sqrt (dx²+dy²). -/
noncomputable def mkSeg (p q : Point) : Seg :=
  let dx := q.x - p.x
  let dy := q.y - p.y
  let length := Real.sqrt (dx ^ 2 + dy ^ 2)
  { x1 := p.x, y1 := p.y, x2 := q.x, y2 := q.y, dx := dx, dy := dy,
    ndx := dx / length, ndy := dy / length, length := length,
    angle := atan2 dy dx }

/-- function getSegments() (main.js lines 31-43): one segment per
consecutive pair of waypoints, in order. -/
noncomputable def getSegments : List Point → List Seg
  | p :: q :: rest => mkSeg p q :: getSegments (q :: rest)
  | _ => []

/-- Total indexing into the segment list (models segments[i]; the JS code
only ever indexes in bounds on the inputs the theorems quantify over). -/
noncomputable def segAt (segs : List Seg) (i : ℕ) : Seg := segs.getD i default

@[simp]
lemma segAt_cons_zero (s : Seg) (t : List Seg) : segAt (s :: t) 0 = s := rfl

@[simp]
lemma segAt_cons_succ (s : Seg) (t : List Seg) (i : ℕ) :
    segAt (s :: t) (i + 1) = segAt t i := rfl

lemma segAt_eq_getElem (segs : List Seg) (i : ℕ) (h : i < segs.length) :
    segAt segs i = segs[i] := by
  induction segs generalizing i with
  | nil => simp at h
  | cons s t ih =>
    cases i with
    | zero => rfl
    | succ j => simpa using ih j (by simpa using h)

lemma segAt_mem (segs : List Seg) (i : ℕ) (h : i < segs.length) :
    segAt segs i ∈ segs := by
  rw [segAt_eq_getElem segs i h]
  exact List.getElem_mem h

/-- The closest-point loop of updatePP (main.js lines 75-88).  Starting at
index cur it computes, for each segment, the normalized scalar projection
d of the robot onto the segment; the first segment with d < 1 is the one
holding the closest point, and d is clamped below at 0.  Returns the index
together with the clamped fraction, or none when the loop runs off the end
of the path (robot past the last segment). -/
noncomputable def findClosest (segs : List Seg) (rx ry : ℝ) (cur : ℕ) :
    Option (ℕ × ℝ) :=
  if h : cur < segs.length then
    let seg := segs[cur]
    let d := ((rx - seg.x1) * seg.ndx + (ry - seg.y1) * seg.ndy) / seg.length
    if d < 1 then some (cur, if d < 0 then 0 else d) else findClosest segs rx ry (cur + 1)
  else none
termination_by segs.length - cur
decreasing_by omega

/-- The forward lookahead loop of updatePP (main.js lines 95-109).  d is
the arc position of the start of segment i relative to the closest point;
the loop accumulates segment lengths until stepping past PURSUIT_DIST and
returns the segment index holding the pursuit point together with the
distance of that point along the segment.  When the loop exhausts the
path, the JS code backs up to the last segment and uses its full length
(the target caps at the end of the path). -/
noncomputable def lookaheadFrom (segs : List Seg) (i : ℕ) (d : ℝ) : ℕ × ℝ :=
  if h : i < segs.length then
    if d + segs[i].length > PURSUIT_DIST then (i, PURSUIT_DIST - d)
    else lookaheadFrom segs (i + 1) (d + segs[i].length)
  else (segs.length - 1, (segAt segs (segs.length - 1)).length)
termination_by segs.length - i
decreasing_by omega

/-- The lookahead call made by updatePP once the closest point is known:
the walk starts on segment c at arc offset -(f * length c) (main.js
line 96). -/
noncomputable def targetCalc (segs : List Seg) (c : ℕ) (f : ℝ) : ℕ × ℝ :=
  lookaheadFrom segs c (-(f * (segAt segs c).length))

/-- x coordinate of the pursuit point (main.js line 110). -/
noncomputable def targetX (segs : List Seg) (c : ℕ) (f : ℝ) : ℝ :=
  (segAt segs (targetCalc segs c f).1).x1 +
    (targetCalc segs c f).2 * (segAt segs (targetCalc segs c f).1).ndx

/-- y coordinate of the pursuit point (main.js line 111). -/
noncomputable def targetY (segs : List Seg) (c : ℕ) (f : ℝ) : ℝ :=
  (segAt segs (targetCalc segs c f).1).y1 +
    (targetCalc segs c f).2 * (segAt segs (targetCalc segs c f).1).ndy

/-- x coordinate of the closest point px0 (main.js line 84). -/
noncomputable def closestX (segs : List Seg) (c : ℕ) (f : ℝ) : ℝ :=
  (segAt segs c).x1 + f * (segAt segs c).dx

/-- y coordinate of the closest point py0 (main.js line 85). -/
noncomputable def closestY (segs : List Seg) (c : ℕ) (f : ℝ) : ℝ :=
  (segAt segs c).y1 + f * (segAt segs c).dy

/-- Euclidean distance from the robot to the pursuit point (main.js
line 115, Math.hypot(px-robotX, py-robotY)). -/
noncomputable def distToTarget (segs : List Seg) (c : ℕ) (f : ℝ) (rx ry : ℝ) : ℝ :=
  Real.sqrt ((targetX segs c f - rx) ^ 2 + (targetY segs c f - ry) ^ 2)

/-- The unclamped inverse arc radius computed by updatePP (main.js lines
122-124) for a robot at (rx, ry) with heading dir pursuing (px, py):
cos (pi/2 - (atan2 (py-ry) (px-rx) - dir)) divided by half the distance. -/
noncomputable def rawCurvature (rx ry dir px py : ℝ) : ℝ :=
  Real.cos (Real.pi / 2 - (atan2 (py - ry) (px - rx) - dir)) /
    (Real.sqrt ((px - rx) ^ 2 + (py - ry) ^ 2) / 2)

/-- The per-tick result of updatePP: either done (path complete, main.js
line 92) or the tracking tuple {radiusInv, badRadius, px0, py0, px, py}
(main.js line 131). -/
inductive PPResult where
  | done : PPResult
  | tracking (radiusInv : ℝ) (badRadius : Bool) (px0 py0 px py : ℝ) : PPResult

lemma findClosest_none_of_ge (segs : List Seg) (rx ry : ℝ) (cur : ℕ)
    (h : segs.length ≤ cur) : findClosest segs rx ry cur = none := by
  rw [findClosest, dif_neg (by omega)]

lemma findClosest_bounds (segs : List Seg) (rx ry : ℝ) :
    ∀ n cur cf, segs.length - cur ≤ n → findClosest segs rx ry cur = some cf →
      cur ≤ cf.1 ∧ cf.1 < segs.length := by
  intro n
  induction n with
  | zero =>
    intro cur cf hle h
    rw [findClosest_none_of_ge segs rx ry cur (by omega)] at h
    exact absurd h (by simp)
  | succ n ih =>
    intro cur cf hle h
    rw [findClosest] at h
    by_cases hlt : cur < segs.length
    · rw [dif_pos hlt] at h
      simp only at h
      by_cases hd : ((rx - segs[cur].x1) * segs[cur].ndx +
          (ry - segs[cur].y1) * segs[cur].ndy) / segs[cur].length < 1
      · rw [if_pos hd] at h
        simp only [Option.some.injEq] at h
        subst h
        exact ⟨le_refl _, hlt⟩
      · rw [if_neg hd] at h
        have := ih (cur + 1) cf (by omega) h
        omega
    · rw [dif_neg hlt] at h
      exact absurd h (by simp)

lemma findClosest_isSome_bounds (segs : List Seg) (rx ry : ℝ) (cur : ℕ)
    (cf : ℕ × ℝ) (h : findClosest segs rx ry cur = some cf) :
    cur ≤ cf.1 ∧ cf.1 < segs.length :=
  findClosest_bounds segs rx ry (segs.length - cur) cur cf (le_refl _) h

/-- Restarting the closest-point loop at the index it found returns the
same answer: the found segment is the first one (from its own index on)
whose projection is below 1. -/
lemma findClosest_self (segs : List Seg) (rx ry : ℝ) :
    ∀ n cur cf, segs.length - cur ≤ n → findClosest segs rx ry cur = some cf →
      findClosest segs rx ry cf.1 = some cf := by
  intro n
  induction n with
  | zero =>
    intro cur cf hle h
    rw [findClosest_none_of_ge segs rx ry cur (by omega)] at h
    exact absurd h (by simp)
  | succ n ih =>
    intro cur cf hle h
    rw [findClosest] at h
    by_cases hlt : cur < segs.length
    · rw [dif_pos hlt] at h
      simp only at h
      by_cases hd : ((rx - segs[cur].x1) * segs[cur].ndx +
          (ry - segs[cur].y1) * segs[cur].ndy) / segs[cur].length < 1
      · rw [if_pos hd] at h
        simp only [Option.some.injEq] at h
        subst h
        rw [findClosest, dif_pos hlt]
        simp only
        rw [if_pos hd]
      · rw [if_neg hd] at h
        exact ih (cur + 1) cf (by omega) h
    · rw [dif_neg hlt] at h
      exact absurd h (by simp)

/-- The clamped projection fraction returned by the closest-point loop is
nonnegative (main.js line 83). -/
lemma findClosest_f_nonneg (segs : List Seg) (rx ry : ℝ) :
    ∀ n cur cf, segs.length - cur ≤ n → findClosest segs rx ry cur = some cf →
      0 ≤ cf.2 := by
  intro n
  induction n with
  | zero =>
    intro cur cf hle h
    rw [findClosest_none_of_ge segs rx ry cur (by omega)] at h
    exact absurd h (by simp)
  | succ n ih =>
    intro cur cf hle h
    rw [findClosest] at h
    by_cases hlt : cur < segs.length
    · rw [dif_pos hlt] at h
      simp only at h
      by_cases hd : ((rx - segs[cur].x1) * segs[cur].ndx +
          (ry - segs[cur].y1) * segs[cur].ndy) / segs[cur].length < 1
      · rw [if_pos hd] at h
        simp only [Option.some.injEq] at h
        subst h
        by_cases hz : ((rx - segs[cur].x1) * segs[cur].ndx +
            (ry - segs[cur].y1) * segs[cur].ndy) / segs[cur].length < 0
        · simp [if_pos hz]
        · simp only [if_neg hz]
          exact le_of_not_lt hz
      · rw [if_neg hd] at h
        exact ih (cur + 1) cf (by omega) h
    · rw [dif_neg hlt] at h
      exact absurd h (by simp)

lemma lookaheadFrom_bounds (segs : List Seg) :
    ∀ n i d, segs.length - i ≤ n → i < segs.length →
      i ≤ (lookaheadFrom segs i d).1 ∧ (lookaheadFrom segs i d).1 < segs.length := by
  intro n
  induction n with
  | zero => intro i d hle hlt; omega
  | succ n ih =>
    intro i d hle hlt
    rw [lookaheadFrom, dif_pos hlt]
    by_cases hb : d + segs[i].length > PURSUIT_DIST
    · rw [if_pos hb]
      exact ⟨le_refl _, hlt⟩
    · rw [if_neg hb]
      by_cases hi : i + 1 < segs.length
      · have := ih (i + 1) (d + segs[i].length) (by omega) hi
        omega
      · rw [lookaheadFrom, dif_neg (by omega)]
        simp only
        omega

lemma targetCalc_bounds (segs : List Seg) (c : ℕ) (f : ℝ) (h : c < segs.length) :
    c ≤ (targetCalc segs c f).1 ∧ (targetCalc segs c f).1 < segs.length :=
  lookaheadFrom_bounds segs (segs.length - c) c _ (le_refl _) h

/-- The condition under which updatePP clamps the curvature (main.js
line 126): the code normalizes a = pi/2 - (bearing - robotDir), not the
pure-pursuit angle alpha itself. -/
def ClampCond (segs : List Seg) (rx ry dir : ℝ) (c : ℕ) (f : ℝ) : Prop :=
  normalizeAngle (Real.pi / 2 -
      (atan2 (targetY segs c f - ry) (targetX segs c f - rx) - dir)) > Real.pi ∨
    |rawCurvature rx ry dir (targetX segs c f) (targetY segs c f)| > 1 / MIN_TURN_RADIUS

/-- The condition under which updatePP skips ahead and retries (main.js
line 116): robot within SKIP_DIST of the pursuit point and the pursuit
point on a segment other than (necessarily after) curSeg. -/
def SkipCond (segs : List Seg) (rx ry : ℝ) (c : ℕ) (f : ℝ) : Prop :=
  distToTarget segs c f rx ry < SKIP_DIST ∧ c ≠ (targetCalc segs c f).1

open Classical in
/-- The recursive controller step, function updatePP of main.js lines
71-132, with the mutable globals made explicit: it consumes the segment
list, the robot pose and the persistent segment index curSeg, and returns
the per-tick result together with the new value of curSeg.  The skip-ahead
retry (lines 116-119) recurses after advancing curSeg to the segment that
holds the pursuit point. -/
noncomputable def updatePPAux (segs : List Seg) (rx ry dir : ℝ) (cur : ℕ) :
    PPResult × ℕ :=
  match hfc : findClosest segs rx ry cur with
  | none => (PPResult.done, segs.length)
  | some cf =>
    if hskip : SkipCond segs rx ry cf.1 cf.2 then
      updatePPAux segs rx ry dir (targetCalc segs cf.1 cf.2).1
    else if ClampCond segs rx ry dir cf.1 cf.2 then
      (PPResult.tracking
        (Real.sign (rawCurvature rx ry dir (targetX segs cf.1 cf.2) (targetY segs cf.1 cf.2)) *
          (1 / MIN_TURN_RADIUS)) true
        (closestX segs cf.1 cf.2) (closestY segs cf.1 cf.2)
        (targetX segs cf.1 cf.2) (targetY segs cf.1 cf.2), cf.1)
    else
      (PPResult.tracking
        (rawCurvature rx ry dir (targetX segs cf.1 cf.2) (targetY segs cf.1 cf.2)) false
        (closestX segs cf.1 cf.2) (closestY segs cf.1 cf.2)
        (targetX segs cf.1 cf.2) (targetY segs cf.1 cf.2), cf.1)
termination_by segs.length - cur
decreasing_by
  have h1 := findClosest_isSome_bounds segs rx ry cur cf hfc
  have h2 := targetCalc_bounds segs cf.1 cf.2 h1.2
  have h3 : cf.1 ≠ (targetCalc segs cf.1 cf.2).1 := hskip.2
  omega

lemma updatePPAux_none (segs : List Seg) (rx ry dir : ℝ) (cur : ℕ)
    (h : findClosest segs rx ry cur = none) :
    updatePPAux segs rx ry dir cur = (PPResult.done, segs.length) := by
  rw [updatePPAux]
  split
  · rfl
  · next cf heq => rw [h] at heq; exact absurd heq (by simp)

lemma updatePPAux_skip (segs : List Seg) (rx ry dir : ℝ) (cur : ℕ) (cf : ℕ × ℝ)
    (h : findClosest segs rx ry cur = some cf)
    (hskip : SkipCond segs rx ry cf.1 cf.2) :
    updatePPAux segs rx ry dir cur =
      updatePPAux segs rx ry dir (targetCalc segs cf.1 cf.2).1 := by
  rw [updatePPAux]
  split
  · next heq => rw [h] at heq; exact absurd heq (by simp)
  · next cf' heq =>
    rw [h] at heq
    injection heq with heq'
    subst heq'
    rw [dif_pos hskip]

lemma updatePPAux_clamp (segs : List Seg) (rx ry dir : ℝ) (cur : ℕ) (cf : ℕ × ℝ)
    (h : findClosest segs rx ry cur = some cf)
    (hskip : ¬ SkipCond segs rx ry cf.1 cf.2)
    (hcl : ClampCond segs rx ry dir cf.1 cf.2) :
    updatePPAux segs rx ry dir cur =
      (PPResult.tracking
        (Real.sign (rawCurvature rx ry dir (targetX segs cf.1 cf.2) (targetY segs cf.1 cf.2)) *
          (1 / MIN_TURN_RADIUS)) true
        (closestX segs cf.1 cf.2) (closestY segs cf.1 cf.2)
        (targetX segs cf.1 cf.2) (targetY segs cf.1 cf.2), cf.1) := by
  rw [updatePPAux]
  split
  · next heq => rw [h] at heq; exact absurd heq (by simp)
  · next cf' heq =>
    rw [h] at heq
    injection heq with heq'
    subst heq'
    rw [dif_neg hskip, if_pos hcl]

lemma updatePPAux_noclamp (segs : List Seg) (rx ry dir : ℝ) (cur : ℕ) (cf : ℕ × ℝ)
    (h : findClosest segs rx ry cur = some cf)
    (hskip : ¬ SkipCond segs rx ry cf.1 cf.2)
    (hcl : ¬ ClampCond segs rx ry dir cf.1 cf.2) :
    updatePPAux segs rx ry dir cur =
      (PPResult.tracking
        (rawCurvature rx ry dir (targetX segs cf.1 cf.2) (targetY segs cf.1 cf.2)) false
        (closestX segs cf.1 cf.2) (closestY segs cf.1 cf.2)
        (targetX segs cf.1 cf.2) (targetY segs cf.1 cf.2), cf.1) := by
  rw [updatePPAux]
  split
  · next heq => rw [h] at heq; exact absurd heq (by simp)
  · next cf' heq =>
    rw [h] at heq
    injection heq with heq'
    subst heq'
    rw [dif_neg hskip, if_neg hcl]

/-- The mutable globals of the pure-pursuit run (main.js lines 69-70 and
140): the segment list, curSeg, the robot pose and the ppRunning flag.
The clock (lastFrame) and the trail drawing buffer are not modelled. -/
structure PPState where
  segments : List Seg
  curSeg : ℕ
  robotX : ℝ
  robotY : ℝ
  robotDir : ℝ
  ppRunning : Bool

/-- One call of updatePP at the state level: runs the recursive step on
the current pose and segment index, stores the new curSeg, and on the
done branch also performs stopPP (main.js line 91), clearing ppRunning. -/
noncomputable def updatePP (s : PPState) : PPResult × PPState :=
  match updatePPAux s.segments s.robotX s.robotY s.robotDir s.curSeg with
  | (PPResult.done, c) =>
    (PPResult.done, { s with curSeg := c, ppRunning := false })
  | (r, c) => (r, { s with curSeg := c })

/-- One animation frame, function ppFrame of main.js lines 143-183 with
the drawing calls stripped: call updatePP, return early when done, and
otherwise integrate the unicycle model over the elapsed time dt — the
heading is updated first and the position then advances along the new
heading (lines 153-159). -/
noncomputable def ppFrame (s : PPState) (dt : ℝ) : PPState :=
  match updatePP s with
  | (PPResult.done, s1) => s1
  | (PPResult.tracking ri _ _ _ _ _, s1) =>
    { s1 with
      robotDir := s1.robotDir + ROBOT_SPEED * dt * ri,
      robotX := s1.robotX + ROBOT_SPEED * dt *
        Real.cos (s1.robotDir + ROBOT_SPEED * dt * ri),
      robotY := s1.robotY + ROBOT_SPEED * dt *
        Real.sin (s1.robotDir + ROBOT_SPEED * dt * ri) }

/-- The whole-page state seen by startPP: the waypoint list plus the
pure-pursuit globals (the clock and the drawing buffers of main.js are
not modelled). -/
structure SimState where
  waypoints : List Point
  segments : List Seg
  curSeg : ℕ
  robotX : ℝ
  robotY : ℝ
  robotDir : ℝ
  ppRunning : Bool

/-- function startPP() of main.js lines 185-196 with JS exception
semantics made explicit.  The statements run in source order:
segments = getSegments(); robotX = waypoints[0].x; robotY = waypoints[0].y;
robotDir = segments[0].angle; curSeg = 0; ppRunning = true.  Reading
waypoints[0].x of an empty list, or segments[0].angle of an empty segment
list, throws a TypeError in JS; the Bool in the result records whether the
call aborted that way, and the returned state keeps exactly the
assignments made before the throw.  (lastFrame, trailBuf and the initial
ppFrame() call are rendering/clock machinery and are not modelled.) -/
noncomputable def startPP (s : SimState) : SimState × Bool :=
  match s.waypoints with
  | [] => ({ s with segments := getSegments s.waypoints }, true)
  | w :: _ =>
    match getSegments s.waypoints with
    | [] =>
      ({ s with segments := getSegments s.waypoints,
                robotX := w.x, robotY := w.y }, true)
    | seg :: _ =>
      ({ s with segments := getSegments s.waypoints,
                robotX := w.x, robotY := w.y,
                robotDir := seg.angle, curSeg := 0, ppRunning := true }, false)

open Classical in
/-- updatePPAux with an explicit bound on the depth of the skip-ahead
recursion: identical to updatePPAux except that each skip-retry consumes
one unit of fuel, and none is returned when the fuel runs out. -/
noncomputable def updatePPFuel : ℕ → List Seg → ℝ → ℝ → ℝ → ℕ →
    Option (PPResult × ℕ)
  | 0, _, _, _, _, _ => none
  | fuel + 1, segs, rx, ry, dir, cur =>
    match findClosest segs rx ry cur with
    | none => some (PPResult.done, segs.length)
    | some cf =>
      if SkipCond segs rx ry cf.1 cf.2 then
        updatePPFuel fuel segs rx ry dir (targetCalc segs cf.1 cf.2).1
      else if ClampCond segs rx ry dir cf.1 cf.2 then
        some (PPResult.tracking
          (Real.sign (rawCurvature rx ry dir (targetX segs cf.1 cf.2)
              (targetY segs cf.1 cf.2)) * (1 / MIN_TURN_RADIUS)) true
          (closestX segs cf.1 cf.2) (closestY segs cf.1 cf.2)
          (targetX segs cf.1 cf.2) (targetY segs cf.1 cf.2), cf.1)
      else
        some (PPResult.tracking
          (rawCurvature rx ry dir (targetX segs cf.1 cf.2) (targetY segs cf.1 cf.2)) false
          (closestX segs cf.1 cf.2) (closestY segs cf.1 cf.2)
          (targetX segs cf.1 cf.2) (targetY segs cf.1 cf.2), cf.1)

/-- What every TRACKING result of updatePP satisfies: the returned curSeg
c is a fixed point of the closest-point search with some fraction f, the
returned points are the corresponding closest/pursuit points, the
skip-ahead condition fails at the returned level, and the returned
curvature/flag are the clamp stage applied to the raw curvature. -/
def TrackSpec (segs : List Seg) (rx ry dir ri : ℝ) (br : Bool)
    (px0 py0 px py : ℝ) (c : ℕ) : Prop :=
  ∃ f, findClosest segs rx ry c = some (c, f) ∧
    px0 = closestX segs c f ∧ py0 = closestY segs c f ∧
    px = targetX segs c f ∧ py = targetY segs c f ∧
    ¬ SkipCond segs rx ry c f ∧
    ((br = true ∧ ClampCond segs rx ry dir c f ∧
        ri = Real.sign (rawCurvature rx ry dir px py) * (1 / MIN_TURN_RADIUS)) ∨
     (br = false ∧ ¬ ClampCond segs rx ry dir c f ∧
        ri = rawCurvature rx ry dir px py))

lemma updatePPAux_tracking_spec (segs : List Seg) (rx ry dir : ℝ) :
    ∀ n cur ri br px0 py0 px py c, segs.length - cur ≤ n →
      updatePPAux segs rx ry dir cur = (PPResult.tracking ri br px0 py0 px py, c) →
      TrackSpec segs rx ry dir ri br px0 py0 px py c := by
  intro n
  induction n with
  | zero =>
    intro cur ri br px0 py0 px py c hle h
    rw [updatePPAux_none segs rx ry dir cur
      (findClosest_none_of_ge segs rx ry cur (by omega))] at h
    exact absurd h (by simp)
  | succ n ih =>
    intro cur ri br px0 py0 px py c hle h
    cases hfc : findClosest segs rx ry cur with
    | none =>
      rw [updatePPAux_none segs rx ry dir cur hfc] at h
      exact absurd h (by simp)
    | some cf =>
      by_cases hskip : SkipCond segs rx ry cf.1 cf.2
      · rw [updatePPAux_skip segs rx ry dir cur cf hfc hskip] at h
        have hb := findClosest_isSome_bounds segs rx ry cur cf hfc
        have hb2 := targetCalc_bounds segs cf.1 cf.2 hb.2
        have hne : cf.1 ≠ (targetCalc segs cf.1 cf.2).1 := hskip.2
        exact ih (targetCalc segs cf.1 cf.2).1 ri br px0 py0 px py c (by omega) h
      · have hself : findClosest segs rx ry cf.1 = some (cf.1, cf.2) := by
          have := findClosest_self segs rx ry (segs.length - cur) cur cf (le_refl _) hfc
          simpa using this
        by_cases hcl : ClampCond segs rx ry dir cf.1 cf.2
        · rw [updatePPAux_clamp segs rx ry dir cur cf hfc hskip hcl] at h
          simp only [Prod.mk.injEq, PPResult.tracking.injEq] at h
          obtain ⟨⟨hri, hbr, h0, h1, h2, h3⟩, hc⟩ := h
          subst hc
          refine ⟨cf.2, hself, h0.symm, h1.symm, h2.symm, h3.symm, hskip, Or.inl ?_⟩
          refine ⟨hbr.symm, hcl, ?_⟩
          rw [← hri, h2, h3]
        · rw [updatePPAux_noclamp segs rx ry dir cur cf hfc hskip hcl] at h
          simp only [Prod.mk.injEq, PPResult.tracking.injEq] at h
          obtain ⟨⟨hri, hbr, h0, h1, h2, h3⟩, hc⟩ := h
          subst hc
          refine ⟨cf.2, hself, h0.symm, h1.symm, h2.symm, h3.symm, hskip, Or.inr ?_⟩
          refine ⟨hbr.symm, hcl, ?_⟩
          rw [← hri, h2, h3]

/-- Convenience form of the master lemma without the explicit measure. -/
lemma updatePPAux_tracking (segs : List Seg) (rx ry dir : ℝ) (cur : ℕ)
    (ri : ℝ) (br : Bool) (px0 py0 px py : ℝ) (c : ℕ)
    (h : updatePPAux segs rx ry dir cur = (PPResult.tracking ri br px0 py0 px py, c)) :
    TrackSpec segs rx ry dir ri br px0 py0 px py c :=
  updatePPAux_tracking_spec segs rx ry dir (segs.length - cur) cur
    ri br px0 py0 px py c (le_refl _) h

/-- Total arc length of the path from the start of segment i to the end
of the path. -/
noncomputable def tailLen (segs : List Seg) (i : ℕ) : ℝ :=
  ((segs.drop i).map Seg.length).sum

/-- Arc length of the path from the start of segment c to the start of
segment i (for c ≤ i). -/
noncomputable def partSum (segs : List Seg) (c i : ℕ) : ℝ :=
  (((segs.drop c).take (i - c)).map Seg.length).sum

/-- Arc length, measured along the polyline, from the closest point
(fraction f within segment c) to the end of the path. -/
noncomputable def remainingArc (segs : List Seg) (c : ℕ) (f : ℝ) : ℝ :=
  tailLen segs c - f * (segAt segs c).length

/-- Arc length, measured along the polyline, from the closest point
(fraction f within segment c) forward to the point at distance d along
segment i. -/
noncomputable def arcAhead (segs : List Seg) (c : ℕ) (f : ℝ) (i : ℕ) (d : ℝ) : ℝ :=
  partSum segs c i - f * (segAt segs c).length + d

/-- The final waypoint of the path, i.e. the far endpoint of the last
segment. -/
noncomputable def lastPoint (segs : List Seg) : ℝ × ℝ :=
  ((segAt segs (segs.length - 1)).x2, (segAt segs (segs.length - 1)).y2)

lemma tailLen_step (segs : List Seg) (i : ℕ) (h : i < segs.length) :
    tailLen segs i = (segAt segs i).length + tailLen segs (i + 1) := by
  unfold tailLen
  rw [List.drop_eq_getElem_cons h, List.map_cons, List.sum_cons,
    segAt_eq_getElem segs i h]

lemma tailLen_nonneg (segs : List Seg) (i : ℕ)
    (h : ∀ s ∈ segs, 0 ≤ s.length) : 0 ≤ tailLen segs i := by
  unfold tailLen
  apply List.sum_nonneg
  intro x hx
  obtain ⟨s, hs, rfl⟩ := List.mem_map.1 hx
  exact h s (List.drop_subset i segs hs)

lemma partSum_self (segs : List Seg) (c : ℕ) : partSum segs c c = 0 := by
  simp [partSum]

lemma partSum_step (segs : List Seg) (c i : ℕ) (hc : c < segs.length)
    (hci : c < i) :
    partSum segs c i = (segAt segs c).length + partSum segs (c + 1) i := by
  unfold partSum
  rw [List.drop_eq_getElem_cons hc]
  have : i - c = (i - (c + 1)) + 1 := by omega
  rw [this, List.take_succ_cons, List.map_cons, List.sum_cons,
    segAt_eq_getElem segs c hc]

/-- When more than PURSUIT_DIST of arc remains ahead of the walk's start,
the lookahead loop breaks inside some segment, and the arc length from
the start of the walk to the returned point is exactly
PURSUIT_DIST - d0; the returned offset lies within its segment. -/
lemma lookaheadFrom_break (segs : List Seg) :
    ∀ n i0 d0, segs.length - i0 ≤ n → i0 < segs.length → d0 ≤ PURSUIT_DIST →
      PURSUIT_DIST < d0 + tailLen segs i0 →
      partSum segs i0 (lookaheadFrom segs i0 d0).1 + (lookaheadFrom segs i0 d0).2
          = PURSUIT_DIST - d0 ∧
        0 ≤ (lookaheadFrom segs i0 d0).2 ∧
        (lookaheadFrom segs i0 d0).2 ≤ (segAt segs (lookaheadFrom segs i0 d0).1).length := by
  intro n
  induction n with
  | zero => intro i0 d0 hle hlt; omega
  | succ n ih =>
    intro i0 d0 hle hlt hd0 hrem
    rw [lookaheadFrom, dif_pos hlt]
    by_cases hb : d0 + segs[i0].length > PURSUIT_DIST
    · rw [if_pos hb]
      refine ⟨by rw [partSum_self]; simp, by simp only; linarith, ?_⟩
      simp only [segAt_eq_getElem segs i0 hlt]
      linarith
    · rw [if_neg hb]
      by_cases hi : i0 + 1 < segs.length
      · have hstep := tailLen_step segs i0 hlt
        have hrem' : PURSUIT_DIST < (d0 + segs[i0].length) + tailLen segs (i0 + 1) := by
          rw [segAt_eq_getElem segs i0 hlt] at hstep
          linarith
        have hres := ih (i0 + 1) (d0 + segs[i0].length) (by omega) hi
          (by linarith) hrem'
        have hge := lookaheadFrom_bounds segs (segs.length - (i0 + 1)) (i0 + 1)
          (d0 + segs[i0].length) (le_refl _) hi
        rw [partSum_step segs i0 (lookaheadFrom segs (i0 + 1) (d0 + segs[i0].length)).1
          hlt (by omega), segAt_eq_getElem segs i0 hlt]
        refine ⟨by linarith [hres.1], hres.2.1, hres.2.2⟩
      · exfalso
        have hstep := tailLen_step segs i0 hlt
        have hnil : segs.drop (i0 + 1) = [] := by
          apply List.drop_eq_nil_of_le
          omega
        have hzero : tailLen segs (i0 + 1) = 0 := by
          unfold tailLen
          rw [hnil]
          simp
        rw [segAt_eq_getElem segs i0 hlt] at hstep
        rw [hstep, hzero] at hrem
        simp only [add_zero] at hrem
        linarith

/-- When at most PURSUIT_DIST of arc remains ahead of the walk's start,
the lookahead loop exhausts the path and caps the pursuit point at the
far end of the last segment (main.js lines 106-109). -/
lemma lookaheadFrom_exhaust (segs : List Seg) :
    ∀ n i0 d0, segs.length - i0 ≤ n → i0 < segs.length →
      (∀ s ∈ segs, 0 ≤ s.length) →
      d0 + tailLen segs i0 ≤ PURSUIT_DIST →
      lookaheadFrom segs i0 d0 =
        (segs.length - 1, (segAt segs (segs.length - 1)).length) := by
  intro n
  induction n with
  | zero => intro i0 d0 hle hlt; omega
  | succ n ih =>
    intro i0 d0 hle hlt hnn hrem
    rw [lookaheadFrom, dif_pos hlt]
    have hstep := tailLen_step segs i0 hlt
    have htail : 0 ≤ tailLen segs (i0 + 1) := tailLen_nonneg segs (i0 + 1) hnn
    have hb : ¬ d0 + segs[i0].length > PURSUIT_DIST := by
      rw [segAt_eq_getElem segs i0 hlt] at hstep
      simp only [not_lt]
      linarith
    rw [if_neg hb]
    by_cases hi : i0 + 1 < segs.length
    · apply ih (i0 + 1) (d0 + segs[i0].length) (by omega) hi hnn
      rw [segAt_eq_getElem segs i0 hlt] at hstep
      linarith
    · rw [lookaheadFrom, dif_neg (by omega)]

/-- Well-formedness of a segment record: positive length and internally
consistent derived fields, as getSegments produces them for distinct
consecutive waypoints. -/
def SegWF (s : Seg) : Prop :=
  0 < s.length ∧ s.ndx = s.dx / s.length ∧ s.ndy = s.dy / s.length ∧
    s.x2 = s.x1 + s.dx ∧ s.y2 = s.y1 + s.dy

/-- Total indexing into the waypoint list (models waypoints[i]). -/
noncomputable def ptAt (ws : List Point) (i : ℕ) : Point := ws.getD i default

@[simp]
lemma ptAt_cons_zero (p : Point) (t : List Point) : ptAt (p :: t) 0 = p := rfl

@[simp]
lemma ptAt_cons_succ (p : Point) (t : List Point) (i : ℕ) :
    ptAt (p :: t) (i + 1) = ptAt t i := rfl

lemma getSegments_length (ws : List Point) :
    (getSegments ws).length = ws.length - 1 := by
  induction ws with
  | nil => simp [getSegments]
  | cons p t ih =>
    cases t with
    | nil => simp [getSegments]
    | cons q r =>
      rw [getSegments]
      simp only [List.length_cons] at ih ⊢
      omega

lemma getSegments_get (ws : List Point) :
    ∀ i, i + 1 < ws.length →
      segAt (getSegments ws) i = mkSeg (ptAt ws i) (ptAt ws (i + 1)) := by
  induction ws with
  | nil => intro i h; simp at h
  | cons p t ih =>
    intro i h
    cases t with
    | nil => simp at h
    | cons q r =>
      rw [getSegments]
      cases i with
      | zero => simp
      | succ j =>
        simp only [segAt_cons_succ, ptAt_cons_succ]
        exact ih j (by simpa using h)

lemma getSegments_fields (ws : List Point) :
    ∀ s ∈ getSegments ws,
      s.length = Real.sqrt (s.dx ^ 2 + s.dy ^ 2) ∧
        s.ndx = s.dx / s.length ∧ s.ndy = s.dy / s.length ∧
        s.angle = atan2 s.dy s.dx ∧
        s.dx = s.x2 - s.x1 ∧ s.dy = s.y2 - s.y1 := by
  induction ws with
  | nil => intro s hs; simp [getSegments] at hs
  | cons p t ih =>
    intro s hs
    cases t with
    | nil => simp [getSegments] at hs
    | cons q r =>
      rw [getSegments] at hs
      rcases List.mem_cons.1 hs with h | h
      · subst h
        refine ⟨rfl, rfl, rfl, rfl, by simp [mkSeg], by simp [mkSeg]⟩
      · exact ih s h

lemma jsTrunc_zero_of_Ico (x : ℝ) (h0 : 0 ≤ x) (h1 : x < 1) : jsTrunc x = 0 := by
  unfold jsTrunc
  rw [if_pos h0]
  exact Int.floor_eq_zero_iff.2 ⟨h0, h1⟩

lemma jsTrunc_zero_of_neg (x : ℝ) (h0 : -1 < x) (h1 : x < 0) : jsTrunc x = 0 := by
  unfold jsTrunc
  rw [if_neg (by linarith)]
  exact Int.ceil_eq_zero_iff.2 ⟨h0, le_of_lt h1⟩

lemma normalizeAngle_of_nonneg (a : ℝ) (h0 : 0 ≤ a) (h1 : a < 2 * Real.pi) :
    normalizeAngle a = a := by
  have htp := Real.two_pi_pos
  have hx0 : 0 ≤ a / (2 * Real.pi) := div_nonneg h0 (by linarith)
  have hx1 : a / (2 * Real.pi) < 1 := (div_lt_one (by linarith)).2 h1
  unfold normalizeAngle jsFmod
  rw [jsTrunc_zero_of_Ico _ hx0 hx1]
  simp only [Int.cast_zero, mul_zero, sub_zero]
  rw [if_neg (by linarith)]

lemma normalizeAngle_of_neg (a : ℝ) (h0 : -(2 * Real.pi) < a) (h1 : a < 0) :
    normalizeAngle a = a + 2 * Real.pi := by
  have htp := Real.two_pi_pos
  have hx0 : -1 < a / (2 * Real.pi) := by
    rw [neg_lt, ← neg_div]
    exact (div_lt_one (by linarith)).2 (by linarith)
  have hx1 : a / (2 * Real.pi) < 0 := div_neg_of_neg_of_pos h1 (by linarith)
  unfold normalizeAngle jsFmod
  rw [jsTrunc_zero_of_neg _ hx0 hx1]
  simp only [Int.cast_zero, mul_zero, sub_zero]
  rw [if_pos h1]

lemma atan2_zero_of_pos (x : ℝ) (hx : 0 ≤ x) : atan2 0 x = 0 := by
  unfold atan2
  rw [Complex.arg_eq_zero_iff]
  exact ⟨hx, rfl⟩

lemma atan2_zero_of_neg (x : ℝ) (hx : x < 0) : atan2 0 x = Real.pi := by
  unfold atan2
  rw [Complex.arg_eq_pi_iff]
  exact ⟨hx, rfl⟩

lemma atan2_neg_of_zero (y : ℝ) (hy : y < 0) : atan2 y 0 = -(Real.pi / 2) := by
  unfold atan2
  rw [Complex.arg_eq_neg_pi_div_two_iff]
  exact ⟨rfl, hy⟩

lemma sqrt_of_sq_eq (x y r : ℝ) (hr : 0 ≤ r) (h : x ^ 2 + y ^ 2 = r ^ 2) :
    Real.sqrt (x ^ 2 + y ^ 2) = r := by
  rw [h]
  exact Real.sqrt_sq hr

lemma sqrt_lit (a r : ℝ) (hr : 0 ≤ r) (h : a = r ^ 2) : Real.sqrt a = r := by
  rw [h]
  exact Real.sqrt_sq hr

@[simp]
lemma getSegments_nil : getSegments [] = [] := rfl

@[simp]
lemma getSegments_single (p : Point) : getSegments [p] = [] := rfl

lemma getSegments_cons (p q : Point) (r : List Point) :
    getSegments (p :: q :: r) = mkSeg p q :: getSegments (q :: r) := rfl

/-- Concrete straight path: two waypoints (0,0) and (1000,0). -/
noncomputable def wpsA : List Point := [⟨0, 0⟩, ⟨1000, 0⟩]

/-- The segment list of the straight path. -/
noncomputable def segsA : List Seg := getSegments wpsA

lemma segsA_val :
    segsA = [{ x1 := 0, y1 := 0, x2 := 1000, y2 := 0, dx := 1000, dy := 0,
               ndx := 1, ndy := 0, length := 1000, angle := 0 }] := by
  have hs : Real.sqrt (1000000 : ℝ) = 1000 :=
    sqrt_lit 1000000 1000 (by norm_num) (by norm_num)
  unfold segsA wpsA
  rw [getSegments_cons, getSegments_single]
  unfold mkSeg
  norm_num [hs, atan2_zero_of_pos]

lemma fcA : findClosest segsA 0 0 0 = some (0, 0) := by
  rw [segsA_val, findClosest]
  rw [dif_pos (by simp)]
  simp only [List.getElem_cons_zero]
  norm_num

lemma tcA : targetCalc segsA 0 0 = (0, 70) := by
  unfold targetCalc
  rw [segsA_val]
  simp only [segAt_cons_zero]
  norm_num
  rw [lookaheadFrom]
  rw [dif_pos (by simp)]
  simp only [List.getElem_cons_zero]
  rw [if_pos (by norm_num [PURSUIT_DIST])]
  norm_num [PURSUIT_DIST]

lemma txA : targetX segsA 0 0 = 70 := by
  unfold targetX
  rw [tcA, segsA_val]
  norm_num

lemma tyA : targetY segsA 0 0 = 0 := by
  unfold targetY
  rw [tcA, segsA_val]
  norm_num

lemma cxA : closestX segsA 0 0 = 0 := by
  unfold closestX
  rw [segsA_val]
  norm_num

lemma cyA : closestY segsA 0 0 = 0 := by
  unfold closestY
  rw [segsA_val]
  norm_num

lemma dstA : distToTarget segsA 0 0 0 0 = 70 := by
  unfold distToTarget
  rw [txA, tyA]
  norm_num
  exact sqrt_lit 4900 70 (by norm_num) (by norm_num)

lemma skipA : ¬ SkipCond segsA 0 0 0 0 := by
  unfold SkipCond
  rw [dstA, SKIP_DIST]
  norm_num

lemma rawA_val : rawCurvature 0 0 0 70 0 = 0 := by
  unfold rawCurvature
  norm_num [atan2_zero_of_pos, Real.cos_pi_div_two]

lemma clampA : ¬ ClampCond segsA 0 0 0 0 0 := by
  have hpi := Real.pi_pos
  unfold ClampCond
  rw [txA, tyA]
  have hat : atan2 ((0 : ℝ) - 0) (70 - 0) = 0 := by norm_num [atan2_zero_of_pos]
  rw [hat]
  have hna : normalizeAngle (Real.pi / 2 - (0 - 0)) = Real.pi / 2 := by
    norm_num
    exact normalizeAngle_of_nonneg _ (by linarith) (by linarith)
  rw [hna]
  push_neg
  refine ⟨by linarith, ?_⟩
  rw [show rawCurvature 0 0 0 70 0 = 0 from rawA_val, MIN_TURN_RADIUS]
  norm_num

lemma evalA : updatePPAux segsA 0 0 0 0 = (PPResult.tracking 0 false 0 0 70 0, 0) := by
  rw [updatePPAux_noclamp segsA 0 0 0 0 (0, 0) fcA skipA clampA]
  dsimp only
  rw [txA, tyA, cxA, cyA, rawA_val]

lemma rawC_val : rawCurvature 0 0 Real.pi 70 0 = 0 := by
  unfold rawCurvature
  have hat : atan2 ((0 : ℝ) - 0) (70 - 0) = 0 := by norm_num [atan2_zero_of_pos]
  rw [hat]
  have ha : Real.pi / 2 - (0 - Real.pi) = Real.pi + Real.pi / 2 := by ring
  rw [ha, add_comm, Real.cos_add_pi, Real.cos_pi_div_two]
  norm_num

lemma clampC : ClampCond segsA 0 0 Real.pi 0 0 := by
  have hpi := Real.pi_pos
  unfold ClampCond
  rw [txA, tyA]
  left
  have hat : atan2 ((0 : ℝ) - 0) (70 - 0) = 0 := by norm_num [atan2_zero_of_pos]
  rw [hat]
  have ha : Real.pi / 2 - (0 - Real.pi) = 3 * Real.pi / 2 := by ring
  rw [ha, normalizeAngle_of_nonneg _ (by linarith) (by linarith)]
  linarith

lemma evalC : updatePPAux segsA 0 0 Real.pi 0 =
    (PPResult.tracking 0 true 0 0 70 0, 0) := by
  rw [updatePPAux_clamp segsA 0 0 Real.pi 0 (0, 0) fcA skipA clampC]
  dsimp only
  rw [txA, tyA, cxA, cyA, rawC_val, Real.sign_zero, zero_mul]

lemma rawD_val : rawCurvature 0 0 (Real.pi / 2) 70 0 = -(1 / 35) := by
  unfold rawCurvature
  have hat : atan2 ((0 : ℝ) - 0) (70 - 0) = 0 := by norm_num [atan2_zero_of_pos]
  rw [hat]
  have ha : Real.pi / 2 - (0 - Real.pi / 2) = Real.pi := by ring
  rw [ha, Real.cos_pi]
  have hs : Real.sqrt (((70 : ℝ) - 0) ^ 2 + (0 - 0) ^ 2) = 70 := by
    norm_num
    exact sqrt_lit 4900 70 (by norm_num) (by norm_num)
  rw [hs]
  norm_num

lemma clampD : ClampCond segsA 0 0 (Real.pi / 2) 0 0 := by
  unfold ClampCond
  rw [txA, tyA]
  right
  rw [show rawCurvature 0 0 (Real.pi / 2) 70 0 = -(1 / 35) from rawD_val,
    MIN_TURN_RADIUS]
  rw [abs_neg, abs_of_pos (by norm_num)]
  norm_num

lemma evalD : updatePPAux segsA 0 0 (Real.pi / 2) 0 =
    (PPResult.tracking (-(1 / 50)) true 0 0 70 0, 0) := by
  rw [updatePPAux_clamp segsA 0 0 (Real.pi / 2) 0 (0, 0) fcA skipA clampD]
  dsimp only
  rw [txA, tyA, cxA, cyA, rawD_val]
  rw [Real.sign_of_neg (by norm_num), MIN_TURN_RADIUS]
  norm_num

/-- Concrete corner path: right along the x axis to (200,0), then down to
(200,-1000). -/
noncomputable def wpsB : List Point := [⟨0, 0⟩, ⟨200, 0⟩, ⟨200, -1000⟩]

/-- The segment list of the corner path. -/
noncomputable def segsB : List Seg := getSegments wpsB

/-- The robot heading used in the corner-path scenario. -/
noncomputable def dirB : ℝ := -(4 * Real.pi / 3)

lemma segsB_val :
    segsB = [{ x1 := 0, y1 := 0, x2 := 200, y2 := 0, dx := 200, dy := 0,
               ndx := 1, ndy := 0, length := 200, angle := 0 },
             { x1 := 200, y1 := 0, x2 := 200, y2 := -1000, dx := 0, dy := -1000,
               ndx := 0, ndy := -1, length := 1000, angle := -(Real.pi / 2) }] := by
  have hs1 : Real.sqrt (40000 : ℝ) = 200 :=
    sqrt_lit 40000 200 (by norm_num) (by norm_num)
  have hs2 : Real.sqrt (1000000 : ℝ) = 1000 :=
    sqrt_lit 1000000 1000 (by norm_num) (by norm_num)
  unfold segsB wpsB
  rw [getSegments_cons, getSegments_cons, getSegments_single]
  unfold mkSeg
  norm_num [hs1, hs2, atan2_zero_of_pos, atan2_neg_of_zero]

lemma fcB : findClosest segsB 200 30 0 = some (1, 0) := by
  rw [segsB_val, findClosest]
  rw [dif_pos (by simp)]
  simp only [List.getElem_cons_zero]
  rw [if_neg (by norm_num)]
  rw [findClosest]
  rw [dif_pos (by simp)]
  simp only [List.getElem_cons_succ, List.getElem_cons_zero]
  rw [if_pos (by norm_num)]
  norm_num

lemma tcB : targetCalc segsB 1 0 = (1, 70) := by
  unfold targetCalc
  rw [segsB_val]
  simp only [segAt_cons_succ, segAt_cons_zero]
  norm_num
  rw [lookaheadFrom]
  rw [dif_pos (by simp)]
  simp only [List.getElem_cons_succ, List.getElem_cons_zero]
  rw [if_pos (by norm_num [PURSUIT_DIST])]
  norm_num [PURSUIT_DIST]

lemma txB : targetX segsB 1 0 = 200 := by
  unfold targetX
  rw [tcB, segsB_val]
  norm_num

lemma tyB : targetY segsB 1 0 = -70 := by
  unfold targetY
  rw [tcB, segsB_val]
  norm_num

lemma cxB : closestX segsB 1 0 = 200 := by
  unfold closestX
  rw [segsB_val]
  norm_num

lemma cyB : closestY segsB 1 0 = 0 := by
  unfold closestY
  rw [segsB_val]
  norm_num

lemma dstB : distToTarget segsB 1 0 200 30 = 100 := by
  unfold distToTarget
  rw [txB, tyB]
  norm_num
  exact sqrt_lit 10000 100 (by norm_num) (by norm_num)

lemma skipB : ¬ SkipCond segsB 200 30 1 0 := by
  unfold SkipCond
  rw [dstB, SKIP_DIST]
  norm_num

lemma bearingB : atan2 ((-70 : ℝ) - 30) (200 - 200) = -(Real.pi / 2) := by
  norm_num [atan2_neg_of_zero]

lemma rawB_val : rawCurvature 200 30 dirB 200 (-70) = 1 / 100 := by
  unfold rawCurvature dirB
  rw [bearingB]
  have ha : Real.pi / 2 - (-(Real.pi / 2) - -(4 * Real.pi / 3)) = -(Real.pi / 3) := by
    ring
  rw [ha, Real.cos_neg, Real.cos_pi_div_three]
  have hs : Real.sqrt (((200 : ℝ) - 200) ^ 2 + (-70 - 30) ^ 2) = 100 := by
    norm_num
    exact sqrt_lit 10000 100 (by norm_num) (by norm_num)
  rw [hs]
  norm_num

lemma clampB : ClampCond segsB 200 30 dirB 1 0 := by
  have hpi := Real.pi_pos
  unfold ClampCond
  rw [txB, tyB]
  left
  rw [bearingB]
  have ha : Real.pi / 2 - (-(Real.pi / 2) - dirB) = -(Real.pi / 3) := by
    unfold dirB
    ring
  rw [ha, normalizeAngle_of_neg _ (by linarith) (by linarith)]
  linarith

lemma evalB : updatePPAux segsB 200 30 dirB 0 =
    (PPResult.tracking (1 / 50) true 200 0 200 (-70), 1) := by
  rw [updatePPAux_clamp segsB 200 30 dirB 0 (1, 0) fcB skipB clampB]
  dsimp only
  rw [txB, tyB, cxB, cyB, rawB_val]
  rw [Real.sign_of_pos (by norm_num), MIN_TURN_RADIUS]
  norm_num

/-- C1: for every robot pose and pursuit point, the pre-clamp curvature
computed by updatePP — the code's expression
cos (pi/2 - (atan2 (py-ry) (px-rx) - dir)) / (L/2) with L the Euclidean
robot-to-target distance (rawCurvature) — equals the pure-pursuit law
2 sin alpha / L for alpha = bearing - heading, sign included; and every
unclamped TRACKING tick of updatePP returns exactly that value. -/
theorem curvature_is_pure_pursuit_law :
    (∀ rx ry dir px py : ℝ,
      rawCurvature rx ry dir px py =
        2 * Real.sin (atan2 (py - ry) (px - rx) - dir) /
          Real.sqrt ((px - rx) ^ 2 + (py - ry) ^ 2)) ∧
    (∀ (segs : List Seg) (rx ry dir : ℝ) (cur : ℕ) (ri px0 py0 px py : ℝ) (c : ℕ),
      updatePPAux segs rx ry dir cur =
        (PPResult.tracking ri false px0 py0 px py, c) →
      ri = 2 * Real.sin (atan2 (py - ry) (px - rx) - dir) /
        Real.sqrt ((px - rx) ^ 2 + (py - ry) ^ 2)) := by
  have hmain : ∀ rx ry dir px py : ℝ,
      rawCurvature rx ry dir px py =
        2 * Real.sin (atan2 (py - ry) (px - rx) - dir) /
          Real.sqrt ((px - rx) ^ 2 + (py - ry) ^ 2) := by
    intro rx ry dir px py
    unfold rawCurvature
    rw [Real.cos_pi_div_two_sub, div_div_eq_mul_div]
    ring
  refine ⟨hmain, ?_⟩
  intro segs rx ry dir cur ri px0 py0 px py c h
  obtain ⟨f, hfc, h0, h1, h2, h3, hns, hd⟩ :=
    updatePPAux_tracking segs rx ry dir cur ri false px0 py0 px py c h
  rcases hd with ⟨hbr, -, -⟩ | ⟨-, -, hri⟩
  · exact absurd hbr (by simp)
  · rw [hri, hmain]

/-- C1 witness: the straight-path tick (robot at the first waypoint,
heading along the path) returns curvature 0, which is the pure-pursuit
law's value there. -/
theorem curvature_is_pure_pursuit_law_witness :
    (0 : ℝ) = 2 * Real.sin (atan2 ((0 : ℝ) - 0) ((70 : ℝ) - 0) - 0) /
      Real.sqrt (((70 : ℝ) - 0) ^ 2 + ((0 : ℝ) - 0) ^ 2) :=
  curvature_is_pure_pursuit_law.2 segsA 0 0 0 0 0 0 0 70 0 0 evalA

/-- C3 counterexample: on the corner path segsB with the robot at
(200, 30) and heading -(4 pi/3), updatePP clamps (flag true, returned
curvature 1/50, different from the computed curvature 1/100) although
alpha = bearing - heading normalized to [0, 2 pi) equals 5 pi/6 and does
not exceed pi, and the computed curvature magnitude 1/100 does not exceed
1/MIN_TURN_RADIUS — so the claim's clamp condition does not hold at a tick
where the code clamps. -/
theorem clamp_condition_cx :
    updatePPAux segsB 200 30 dirB 0 =
      (PPResult.tracking (1 / 50) true 200 0 200 (-70), 1) ∧
    ¬ normalizeAngle (atan2 ((-70 : ℝ) - 30) ((200 : ℝ) - 200) - dirB) > Real.pi ∧
    ¬ |rawCurvature 200 30 dirB 200 (-70)| > 1 / MIN_TURN_RADIUS ∧
    (1 / 50 : ℝ) ≠ rawCurvature 200 30 dirB 200 (-70) := by
  have hpi := Real.pi_pos
  refine ⟨evalB, ?_, ?_, ?_⟩
  · rw [bearingB]
    have ha : -(Real.pi / 2) - dirB = 5 * Real.pi / 6 := by
      unfold dirB
      ring
    rw [ha, normalizeAngle_of_nonneg _ (by linarith) (by linarith)]
    linarith
  · rw [rawB_val, MIN_TURN_RADIUS, abs_of_pos (by norm_num : (0 : ℝ) < 1 / 100)]
    norm_num
  · rw [rawB_val]
    norm_num

/-- C3 (amended): for every TRACKING tick, the clamp fires (flag true)
exactly when normalizeAngle (pi/2 - alpha) exceeds pi — the code
normalizes a = pi/2 - (bearing - heading), not alpha itself — or the
computed curvature magnitude exceeds 1/MIN_TURN_RADIUS; when it fires the
returned curvature is sign(curvature) * (1/MIN_TURN_RADIUS), and otherwise
the curvature is returned unmodified with the flag false. -/
theorem clamp_condition_amended (segs : List Seg) (rx ry dir : ℝ) (cur : ℕ)
    (ri : ℝ) (br : Bool) (px0 py0 px py : ℝ) (c : ℕ)
    (h : updatePPAux segs rx ry dir cur = (PPResult.tracking ri br px0 py0 px py, c)) :
    (br = true ↔
      normalizeAngle (Real.pi / 2 - (atan2 (py - ry) (px - rx) - dir)) > Real.pi ∨
        |rawCurvature rx ry dir px py| > 1 / MIN_TURN_RADIUS) ∧
    (br = true →
      ri = Real.sign (rawCurvature rx ry dir px py) * (1 / MIN_TURN_RADIUS)) ∧
    (br = false → ri = rawCurvature rx ry dir px py) := by
  obtain ⟨f, hfc, h0, h1, h2, h3, hns, hd⟩ :=
    updatePPAux_tracking segs rx ry dir cur ri br px0 py0 px py c h
  have hcc : ClampCond segs rx ry dir c f ↔
      (normalizeAngle (Real.pi / 2 - (atan2 (py - ry) (px - rx) - dir)) > Real.pi ∨
        |rawCurvature rx ry dir px py| > 1 / MIN_TURN_RADIUS) := by
    unfold ClampCond
    rw [← h2, ← h3]
  rcases hd with ⟨hbr, hcl, hri⟩ | ⟨hbr, hcl, hri⟩
  · subst hbr
    exact ⟨⟨fun _ => hcc.1 hcl, fun _ => rfl⟩, fun _ => hri, by simp⟩
  · subst hbr
    refine ⟨⟨by simp, fun hx => absurd (hcc.2 hx) hcl⟩, by simp, fun _ => hri⟩

/-- C3 witness: on the straight-path tick the flag is false, neither
clamp condition holds, and the returned curvature is the raw one. -/
theorem clamp_condition_amended_witness :
    ((false = true) ↔
      normalizeAngle (Real.pi / 2 - (atan2 ((0 : ℝ) - 0) ((70 : ℝ) - 0) - 0)) > Real.pi ∨
        |rawCurvature 0 0 0 70 0| > 1 / MIN_TURN_RADIUS) ∧
    ((false = true) →
      (0 : ℝ) = Real.sign (rawCurvature 0 0 0 70 0) * (1 / MIN_TURN_RADIUS)) ∧
    ((false = false) → (0 : ℝ) = rawCurvature 0 0 0 70 0) :=
  clamp_condition_amended segsA 0 0 0 0 0 false 0 0 70 0 0 evalA

/-- C10 counterexample: on the straight path with the robot at the first
waypoint heading pi/2, the pursuit target (70, 0) lies exactly
perpendicular to the robot's right (alpha = -pi/2), yet the computed
curvature is -1/35, not 0, and the returned (clamped) curvature is -1/50,
not 0 — the claim's description of this geometry is wrong. -/
theorem clamped_perpendicular_cx :
    atan2 ((0 : ℝ) - 0) ((70 : ℝ) - 0) - Real.pi / 2 = -(Real.pi / 2) ∧
    updatePPAux segsA 0 0 (Real.pi / 2) 0 =
      (PPResult.tracking (-(1 / 50)) true 0 0 70 0, 0) ∧
    rawCurvature 0 0 (Real.pi / 2) 70 0 ≠ 0 ∧
    (-(1 / 50) : ℝ) ≠ 0 := by
  refine ⟨?_, evalD, ?_, by norm_num⟩
  · norm_num [atan2_zero_of_pos]
  · rw [rawD_val]
    norm_num

/-- C10 (amended): when a TRACKING tick clamps while the computed
curvature is exactly 0 — which happens when the target lies exactly
behind the robot, alpha = bearing - heading congruent to pi, not at
alpha = -pi/2 — the returned curvature is 0 (Math.sign 0 = 0), not
plus/minus 1/MIN_TURN_RADIUS, even though the clamped flag is true; so a
clamped result does not always have curvature magnitude
1/MIN_TURN_RADIUS.  The tick updatePPAux segsA 0 0 pi 0 (target exactly
behind: alpha = atan2 0 70 - pi = -pi) realizes this. -/
theorem clamped_zero_when_behind :
    (∀ (segs : List Seg) (rx ry dir : ℝ) (cur : ℕ) (ri px0 py0 px py : ℝ) (c : ℕ),
      updatePPAux segs rx ry dir cur = (PPResult.tracking ri true px0 py0 px py, c) →
      rawCurvature rx ry dir px py = 0 → ri = 0) ∧
    updatePPAux segsA 0 0 Real.pi 0 = (PPResult.tracking 0 true 0 0 70 0, 0) ∧
    rawCurvature 0 0 Real.pi 70 0 = 0 ∧
    atan2 ((0 : ℝ) - 0) ((70 : ℝ) - 0) - Real.pi = -Real.pi := by
  refine ⟨?_, evalC, rawC_val, by norm_num [atan2_zero_of_pos]⟩
  intro segs rx ry dir cur ri px0 py0 px py c h hz
  obtain ⟨f, hfc, h0, h1, h2, h3, hns, hd⟩ :=
    updatePPAux_tracking segs rx ry dir cur ri true px0 py0 px py c h
  rcases hd with ⟨-, -, hri⟩ | ⟨hbr, -, -⟩
  · rw [hri, hz, Real.sign_zero, zero_mul]
  · exact absurd hbr (by simp)

/-- C10 witness: the clamped zero-curvature tick (target exactly behind)
returns curvature 0. -/
theorem clamped_zero_when_behind_witness : (0 : ℝ) = 0 :=
  clamped_zero_when_behind.1 segsA 0 0 Real.pi 0 0 0 0 70 0 0 evalC rawC_val

/-- C4: getSegments turns N waypoints into N-1 segments in order (empty
list for 0 or 1 waypoints), the i-th segment being built from waypoints i
and i+1, and every produced segment satisfies
length = hypot dx dy, ndx = dx/length, ndy = dy/length,
angle = atan2 dy dx with dx = x2 - x1 and dy = y2 - y1. -/
theorem getSegments_spec (ws : List Point) :
    (getSegments ws).length = ws.length - 1 ∧
    (ws.length ≤ 1 → getSegments ws = []) ∧
    (∀ i, i + 1 < ws.length →
      segAt (getSegments ws) i = mkSeg (ptAt ws i) (ptAt ws (i + 1))) ∧
    (∀ s ∈ getSegments ws,
      s.length = Real.sqrt (s.dx ^ 2 + s.dy ^ 2) ∧
        s.ndx = s.dx / s.length ∧ s.ndy = s.dy / s.length ∧
        s.angle = atan2 s.dy s.dx ∧ s.dx = s.x2 - s.x1 ∧ s.dy = s.y2 - s.y1) := by
  refine ⟨getSegments_length ws, ?_, getSegments_get ws, getSegments_fields ws⟩
  intro h
  match ws with
  | [] => rfl
  | [p] => rfl
  | p :: q :: r => simp at h

/-- C4 witness: for the two waypoints (0,0) and (3,4) there is one
segment, built from that pair. -/
theorem getSegments_spec_witness :
    (0 + 1 < ([⟨0, 0⟩, ⟨3, 4⟩] : List Point).length) ∧
    segAt (getSegments [⟨0, 0⟩, ⟨3, 4⟩]) 0 =
      mkSeg (ptAt [⟨0, 0⟩, ⟨3, 4⟩] 0) (ptAt [⟨0, 0⟩, ⟨3, 4⟩] 1) :=
  ⟨by simp, (getSegments_spec [⟨0, 0⟩, ⟨3, 4⟩]).2.2.1 0 (by simp)⟩

/-- C5: getSegments neither rejects nor skips a zero-length segment: two
coincident consecutive waypoints produce exactly one segment whose length
is 0, and whose direction components are computed by dividing by that
zero length (in JS, 0/0 = NaN; the spec requires the builder to reject or
skip instead). -/
theorem getSegments_degenerate :
    getSegments [⟨0, 0⟩, ⟨0, 0⟩] = [mkSeg ⟨0, 0⟩ ⟨0, 0⟩] ∧
    (mkSeg (⟨0, 0⟩ : Point) ⟨0, 0⟩).length = 0 ∧
    (getSegments [(⟨0, 0⟩ : Point), ⟨0, 0⟩]).length = 1 := by
  refine ⟨rfl, ?_, rfl⟩
  unfold mkSeg
  norm_num

lemma hwfA : ∀ s ∈ segsA, SegWF s := by
  rw [segsA_val]
  intro s hs
  simp only [List.mem_singleton] at hs
  subst hs
  unfold SegWF
  norm_num

lemma remA : PURSUIT_DIST < remainingArc segsA 0 0 := by
  unfold remainingArc tailLen
  rw [segsA_val, PURSUIT_DIST]
  norm_num

/-- C2: every TRACKING tick of updatePP on a well-formed segment list
returns the pursuit point computed by the forward arc-length walk from
the closest point (fraction f on segment c); when more than PURSUIT_DIST
of path remains past the closest point, that point lies on the path at
exactly PURSUIT_DIST of arc length ahead of the closest point (measured
along the polyline), and when at most PURSUIT_DIST remains the point is
exactly the final waypoint of the path. -/
theorem lookahead_target_arclength (segs : List Seg) (rx ry dir : ℝ) (cur : ℕ)
    (ri : ℝ) (br : Bool) (px0 py0 px py : ℝ) (c : ℕ)
    (hwf : ∀ s ∈ segs, SegWF s)
    (h : updatePPAux segs rx ry dir cur = (PPResult.tracking ri br px0 py0 px py, c)) :
    ∃ f, findClosest segs rx ry c = some (c, f) ∧
      px = targetX segs c f ∧ py = targetY segs c f ∧
      (PURSUIT_DIST < remainingArc segs c f →
        arcAhead segs c f (targetCalc segs c f).1 (targetCalc segs c f).2 =
            PURSUIT_DIST ∧
          0 ≤ (targetCalc segs c f).2 ∧
          (targetCalc segs c f).2 ≤ (segAt segs (targetCalc segs c f).1).length) ∧
      (remainingArc segs c f ≤ PURSUIT_DIST → (px, py) = lastPoint segs) := by
  obtain ⟨f, hfc, h0, h1, h2, h3, hns, hd⟩ :=
    updatePPAux_tracking segs rx ry dir cur ri br px0 py0 px py c h
  have hc : c < segs.length := (findClosest_isSome_bounds segs rx ry c (c, f) hfc).2
  have hf0 : 0 ≤ f :=
    findClosest_f_nonneg segs rx ry (segs.length - c) c (c, f) (le_refl _) hfc
  have hlen0 : 0 < (segAt segs c).length := (hwf _ (segAt_mem segs c hc)).1
  have hd0 : -(f * (segAt segs c).length) ≤ PURSUIT_DIST := by
    have hmul : 0 ≤ f * (segAt segs c).length := mul_nonneg hf0 (le_of_lt hlen0)
    rw [PURSUIT_DIST]
    linarith
  refine ⟨f, hfc, h2, h3, ?_, ?_⟩
  · intro hrem
    have hrem' : PURSUIT_DIST < -(f * (segAt segs c).length) + tailLen segs c := by
      unfold remainingArc at hrem
      linarith
    have hbrk := lookaheadFrom_break segs (segs.length - c) c
      (-(f * (segAt segs c).length)) (le_refl _) hc hd0 hrem'
    unfold targetCalc arcAhead partSum
    unfold targetCalc partSum at hbrk
    refine ⟨by linarith [hbrk.1], hbrk.2.1, hbrk.2.2⟩
  · intro hrem
    have hrem' : -(f * (segAt segs c).length) + tailLen segs c ≤ PURSUIT_DIST := by
      unfold remainingArc at hrem
      linarith
    have hnn : ∀ s ∈ segs, 0 ≤ s.length := fun s hs => le_of_lt (hwf s hs).1
    have hex := lookaheadFrom_exhaust segs (segs.length - c) c
      (-(f * (segAt segs c).length)) (le_refl _) hc hnn hrem'
    have hlt : segs.length - 1 < segs.length := by omega
    obtain ⟨hpos, hndx, hndy, hx2, hy2⟩ := hwf _ (segAt_mem segs (segs.length - 1) hlt)
    rw [h2, h3]
    unfold targetX targetY targetCalc lastPoint
    rw [hex]
    dsimp only
    rw [hndx, hndy, hx2, hy2, Prod.mk.injEq]
    constructor
    · rw [mul_comm, div_mul_cancel₀ _ (ne_of_gt hpos)]
    · rw [mul_comm, div_mul_cancel₀ _ (ne_of_gt hpos)]

/-- C2 witness: on the straight path with the robot at the start, more
than PURSUIT_DIST of path remains and the pursuit point sits at exactly
PURSUIT_DIST of arc length ahead of the closest point. -/
theorem lookahead_target_arclength_witness :
    arcAhead segsA 0 0 (targetCalc segsA 0 0).1 (targetCalc segsA 0 0).2 =
      PURSUIT_DIST := by
  obtain ⟨f, hfc, -, -, hbrk, -⟩ :=
    lookahead_target_arclength segsA 0 0 0 0 0 false 0 0 70 0 0 hwfA evalA
  have hf : f = 0 := by
    have hco := hfc.symm.trans fcA
    simpa using hco
  subst hf
  exact (hbrk remA).1

lemma updatePP_of_done (s : PPState) (c : ℕ)
    (h : updatePPAux s.segments s.robotX s.robotY s.robotDir s.curSeg =
      (PPResult.done, c)) :
    updatePP s = (PPResult.done, { s with curSeg := c, ppRunning := false }) := by
  unfold updatePP
  rw [h]

lemma updatePPAux_done_snd (segs : List Seg) (rx ry dir : ℝ) :
    ∀ n cur, segs.length - cur ≤ n →
      (updatePPAux segs rx ry dir cur).1 = PPResult.done →
      updatePPAux segs rx ry dir cur = (PPResult.done, segs.length) := by
  intro n
  induction n with
  | zero =>
    intro cur hle h1
    exact updatePPAux_none segs rx ry dir cur
      (findClosest_none_of_ge segs rx ry cur (by omega))
  | succ n ih =>
    intro cur hle h1
    cases hfc : findClosest segs rx ry cur with
    | none => exact updatePPAux_none segs rx ry dir cur hfc
    | some cf =>
      by_cases hskip : SkipCond segs rx ry cf.1 cf.2
      · rw [updatePPAux_skip segs rx ry dir cur cf hfc hskip] at h1 ⊢
        have hb := findClosest_isSome_bounds segs rx ry cur cf hfc
        have hb2 := targetCalc_bounds segs cf.1 cf.2 hb.2
        have hne : cf.1 ≠ (targetCalc segs cf.1 cf.2).1 := hskip.2
        exact ih (targetCalc segs cf.1 cf.2).1 (by omega) h1
      · by_cases hcl : ClampCond segs rx ry dir cf.1 cf.2
        · rw [updatePPAux_clamp segs rx ry dir cur cf hfc hskip hcl] at h1
          simp at h1
        · rw [updatePPAux_noclamp segs rx ry dir cur cf hfc hskip hcl] at h1
          simp at h1

/-- C7: once a step has reported done, every subsequent call of updatePP
reports done again and returns the state unchanged (curSeg and the robot
pose included), and ppFrame — which integrates the pose only on tracking
results — is the identity on that state, for every dt and every number of
further steps. -/
theorem done_terminal_idempotent (s : PPState)
    (h : (updatePP s).1 = PPResult.done) :
    updatePP (updatePP s).2 = (PPResult.done, (updatePP s).2) ∧
    (∀ dt, ppFrame (updatePP s).2 dt = (updatePP s).2) ∧
    (∀ k, (fun st => (updatePP st).2)^[k] (updatePP s).2 = (updatePP s).2) := by
  have haux1 : (updatePPAux s.segments s.robotX s.robotY s.robotDir s.curSeg).1 =
      PPResult.done := by
    unfold updatePP at h
    cases hx : updatePPAux s.segments s.robotX s.robotY s.robotDir s.curSeg with
    | mk r c =>
      rw [hx] at h
      cases r with
      | done => rfl
      | tracking ri br px0 py0 px py => simp at h
  have haux := updatePPAux_done_snd s.segments s.robotX s.robotY s.robotDir
    (s.segments.length - s.curSeg) s.curSeg (le_refl _) haux1
  have hstep : updatePP s =
      (PPResult.done, { s with curSeg := s.segments.length, ppRunning := false }) :=
    updatePP_of_done s s.segments.length haux
  have haux2 : updatePPAux s.segments s.robotX s.robotY s.robotDir
      s.segments.length = (PPResult.done, s.segments.length) :=
    updatePPAux_none _ _ _ _ _ (findClosest_none_of_ge _ _ _ _ (le_refl _))
  have h2 : updatePP ({ s with curSeg := s.segments.length, ppRunning := false } :
        PPState) =
      (PPResult.done,
        ({ s with curSeg := s.segments.length, ppRunning := false } : PPState)) :=
    updatePP_of_done _ s.segments.length haux2
  rw [hstep]
  dsimp only
  refine ⟨h2, fun dt => ?_, fun k => ?_⟩
  · unfold ppFrame
    rw [h2]
  · induction k with
    | zero => rfl
    | succ k ih =>
      rw [Function.iterate_succ_apply', ih]
      show (updatePP _).2 = _
      rw [h2]

/-- C7 witness: with no segments the first step is already done; the next
step returns the same state with done. -/
theorem done_terminal_idempotent_witness :
    updatePP (updatePP (⟨[], 0, 0, 0, 0, true⟩ : PPState)).2 =
      (PPResult.done, (updatePP (⟨[], 0, 0, 0, 0, true⟩ : PPState)).2) :=
  (done_terminal_idempotent ⟨[], 0, 0, 0, 0, true⟩
    (by
      rw [updatePP_of_done ⟨[], 0, 0, 0, 0, true⟩ 0
        (updatePPAux_none _ _ _ _ _ (findClosest_none_of_ge _ _ _ _ (le_refl _)))])).1

lemma updatePPAux_cur_le (segs : List Seg) (rx ry dir : ℝ) :
    ∀ n cur, segs.length - cur ≤ n → cur ≤ segs.length →
      cur ≤ (updatePPAux segs rx ry dir cur).2 := by
  intro n
  induction n with
  | zero =>
    intro cur hle hcur
    rw [updatePPAux_none segs rx ry dir cur
      (findClosest_none_of_ge segs rx ry cur (by omega))]
    exact hcur
  | succ n ih =>
    intro cur hle hcur
    cases hfc : findClosest segs rx ry cur with
    | none =>
      rw [updatePPAux_none segs rx ry dir cur hfc]
      exact hcur
    | some cf =>
      have hb := findClosest_isSome_bounds segs rx ry cur cf hfc
      by_cases hskip : SkipCond segs rx ry cf.1 cf.2
      · rw [updatePPAux_skip segs rx ry dir cur cf hfc hskip]
        have hb2 := targetCalc_bounds segs cf.1 cf.2 hb.2
        have hne : cf.1 ≠ (targetCalc segs cf.1 cf.2).1 := hskip.2
        have hrec := ih (targetCalc segs cf.1 cf.2).1 (by omega) (by omega)
        omega
      · by_cases hcl : ClampCond segs rx ry dir cf.1 cf.2
        · rw [updatePPAux_clamp segs rx ry dir cur cf hfc hskip hcl]
          exact hb.1
        · rw [updatePPAux_noclamp segs rx ry dir cur cf hfc hskip hcl]
          exact hb.1

lemma updatePP_curSeg (s : PPState) :
    (updatePP s).2.curSeg =
      (updatePPAux s.segments s.robotX s.robotY s.robotDir s.curSeg).2 := by
  unfold updatePP
  cases hx : updatePPAux s.segments s.robotX s.robotY s.robotDir s.curSeg with
  | mk r c => cases r <;> rfl

/-- C8: within a run, updatePP never decreases curSeg (whenever the
stored index is in range, every code path leaves it greater or equal);
and startPP resets it to 0 whenever a run actually starts (at least two
waypoints). -/
theorem curSeg_monotone_and_reset :
    (∀ s : PPState, s.curSeg ≤ s.segments.length →
      s.curSeg ≤ (updatePP s).2.curSeg) ∧
    (∀ s : SimState, 2 ≤ s.waypoints.length →
      (startPP s).1.curSeg = 0 ∧ (startPP s).2 = false) := by
  constructor
  · intro s hs
    rw [updatePP_curSeg]
    exact updatePPAux_cur_le s.segments s.robotX s.robotY s.robotDir
      (s.segments.length - s.curSeg) s.curSeg (le_refl _) hs
  · intro s hw
    unfold startPP
    split
    · next hws =>
      rw [hws] at hw
      simp at hw
    · next w tl hws =>
      split
      · next hgs =>
        exfalso
        have hlen := getSegments_length s.waypoints
        rw [hgs, hws] at hlen
        simp at hlen
        rw [hws] at hw
        simp at hw
        omega
      · next seg t hgs => exact ⟨rfl, rfl⟩

/-- C8 witness: a concrete step does not decrease curSeg, and startPP on
the two-waypoint path resets curSeg (previously 5) to 0. -/
theorem curSeg_monotone_and_reset_witness :
    ((⟨segsA, 0, 0, 0, 0, true⟩ : PPState).curSeg ≤
      (updatePP ⟨segsA, 0, 0, 0, 0, true⟩).2.curSeg) ∧
    (startPP ⟨wpsA, [], 5, 1, 2, 3, false⟩).1.curSeg = 0 :=
  ⟨curSeg_monotone_and_reset.1 ⟨segsA, 0, 0, 0, 0, true⟩ (Nat.zero_le _),
   (curSeg_monotone_and_reset.2 ⟨wpsA, [], 5, 1, 2, 3, false⟩
     (by norm_num [wpsA])).1⟩

lemma updatePPFuel_none (fuel : ℕ) (segs : List Seg) (rx ry dir : ℝ) (cur : ℕ)
    (h : findClosest segs rx ry cur = none) :
    updatePPFuel (fuel + 1) segs rx ry dir cur =
      some (PPResult.done, segs.length) := by
  rw [updatePPFuel, h]

open Classical in
lemma updatePPFuel_some (fuel : ℕ) (segs : List Seg) (rx ry dir : ℝ) (cur : ℕ)
    (cf : ℕ × ℝ) (h : findClosest segs rx ry cur = some cf) :
    updatePPFuel (fuel + 1) segs rx ry dir cur =
      if SkipCond segs rx ry cf.1 cf.2 then
        updatePPFuel fuel segs rx ry dir (targetCalc segs cf.1 cf.2).1
      else if ClampCond segs rx ry dir cf.1 cf.2 then
        some (PPResult.tracking
          (Real.sign (rawCurvature rx ry dir (targetX segs cf.1 cf.2)
              (targetY segs cf.1 cf.2)) * (1 / MIN_TURN_RADIUS)) true
          (closestX segs cf.1 cf.2) (closestY segs cf.1 cf.2)
          (targetX segs cf.1 cf.2) (targetY segs cf.1 cf.2), cf.1)
      else
        some (PPResult.tracking
          (rawCurvature rx ry dir (targetX segs cf.1 cf.2) (targetY segs cf.1 cf.2))
          false
          (closestX segs cf.1 cf.2) (closestY segs cf.1 cf.2)
          (targetX segs cf.1 cf.2) (targetY segs cf.1 cf.2), cf.1) := by
  rw [updatePPFuel, h]

/-- C9: the corner-skip retry terminates with recursion depth bounded by
the number of segments: on fuel exceeding segments.length - curSeg the
fuel-instrumented controller step never runs out of fuel and computes
exactly the total function updatePPAux (each skip firing strictly
increases curSeg, which segments.length bounds). -/
theorem updatePP_skip_depth_bounded :
    ∀ (fuel : ℕ) (segs : List Seg) (rx ry dir : ℝ) (cur : ℕ),
      segs.length - cur < fuel →
      updatePPFuel fuel segs rx ry dir cur = some (updatePPAux segs rx ry dir cur) := by
  intro fuel
  induction fuel with
  | zero =>
    intro segs rx ry dir cur h
    omega
  | succ fuel ih =>
    intro segs rx ry dir cur h
    cases hfc : findClosest segs rx ry cur with
    | none =>
      rw [updatePPFuel_none fuel segs rx ry dir cur hfc,
        updatePPAux_none segs rx ry dir cur hfc]
    | some cf =>
      rw [updatePPFuel_some fuel segs rx ry dir cur cf hfc]
      by_cases hskip : SkipCond segs rx ry cf.1 cf.2
      · rw [if_pos hskip, updatePPAux_skip segs rx ry dir cur cf hfc hskip]
        have hb := findClosest_isSome_bounds segs rx ry cur cf hfc
        have hb2 := targetCalc_bounds segs cf.1 cf.2 hb.2
        have hne : cf.1 ≠ (targetCalc segs cf.1 cf.2).1 := hskip.2
        exact ih segs rx ry dir (targetCalc segs cf.1 cf.2).1 (by omega)
      · rw [if_neg hskip]
        by_cases hcl : ClampCond segs rx ry dir cf.1 cf.2
        · rw [if_pos hcl, updatePPAux_clamp segs rx ry dir cur cf hfc hskip hcl]
        · rw [if_neg hcl, updatePPAux_noclamp segs rx ry dir cur cf hfc hskip hcl]

/-- C9 witness: fuel 1 suffices for the empty segment list. -/
theorem updatePP_skip_depth_bounded_witness :
    updatePPFuel 1 [] 0 0 0 0 = some (updatePPAux [] 0 0 0 0) :=
  updatePP_skip_depth_bounded 1 [] 0 0 0 0 (by simp)

/-- C6 evidence: startPP with the single waypoint (5,7) first assigns the
robot pose fields robotX := 5 and robotY := 7 (changing them from their
prior values 1 and 2) and only then aborts with the TypeError from
reading segments[0].angle of the empty segment list — the start does not
fail cleanly with no pose fields set.  With zero waypoints the abort
comes before any pose assignment. -/
theorem startPP_single_waypoint_sets_pose :
    startPP ⟨[⟨5, 7⟩], [], 3, 1, 2, 0, false⟩ =
      (⟨[⟨5, 7⟩], [], 3, 5, 7, 0, false⟩, true) ∧
    ((5 : ℝ) ≠ 1 ∧ (7 : ℝ) ≠ 2) ∧
    startPP ⟨[], [], 3, 1, 2, 0, false⟩ = (⟨[], [], 3, 1, 2, 0, false⟩, true) :=
  ⟨rfl, ⟨by norm_num, by norm_num⟩, rfl⟩

end FRCWaypoints
